import Mathlib

/-!
Verification development for `rehype-custom-toc` (src/src/index.ts).

The plugin collects headings from a HAST tree (assigning each heading an
`id`: the pre-existing one when truthy, otherwise a fresh slug from a
GitHub-slugger instance), builds a nested table-of-contents list with a
depth-gap stack machine, wraps it with a template, and splices the result
into the document at `<!-- toc -->` marker comments (prepending when no
marker exists).

The HAST tree, the builder state and every operation of `generateToc` and
of the transformer are embedded below as executable Lean definitions.
External collaborators that are not part of the repository (github-slugger,
hast-util-to-text, the serialize/template/re-parse round trip, the JS
string primitives) are modelled from the contracts in the spec; each
such definition carries a comment saying so.
-/

namespace RehypeToc

/-- A HAST node: `element` / `comment` / `text`.  Properties are modelled
as an association list from property name to string value (the only
property the plugin reads or writes is `id`; `href` and `class` only ever
hold strings here). -/
inductive HNode where
  | element (tag : String) (props : List (String × String)) (children : List HNode)
  | comment (value : String)
  | text (value : String)

/-- Lookup `props[k]` of a property; `undefined` becomes `none`. -/
def getProp (props : List (String × String)) (k : String) : Option String :=
  (props.find? (fun p => p.1 = k)).map (fun p => p.2)

/-- Assignment `props[k] = v` on the properties record. -/
def setProp (props : List (String × String)) (k : String) (v : String) :
    List (String × String) :=
  props.filter (fun p => ¬ p.1 = k) ++ [(k, v)]

/-- Removing a property; used only to state "all other properties are
unchanged". -/
def eraseProp (props : List (String × String)) (k : String) :
    List (String × String) :=
  props.filter (fun p => ¬ p.1 = k)

/-- Modelled from the spec: JS `Character.toLowerCase` for the ASCII
range, used by `node.value.trim().toLowerCase()` in the transformer. -/
def lowerChar (c : Char) : Char :=
  if 65 ≤ c.toNat ∧ c.toNat ≤ 90 then Char.ofNat (c.toNat + 32) else c

/-- Modelled from the spec: JS `String.prototype.toLowerCase`. -/
def strLower (s : String) : String :=
  String.mk (s.data.map lowerChar)

/-- ASCII whitespace, for the `trim` model. -/
def isWS (c : Char) : Bool :=
  c = ' ' ∨ c = '\t' ∨ c = '\n' ∨ c = '\r'

/-- Modelled from the spec: JS `String.prototype.trim`. -/
def strTrim (s : String) : String :=
  String.mk (((s.data.dropWhile isWS).reverse.dropWhile isWS).reverse)

/-- The check `["h1",...,"h6"].includes(tagName)` together with
`parseInt(tagName.slice(1), 10)`: the depth of a heading tag, `none` for
non-heading tags. -/
def headingDepth (tag : String) : Option Nat :=
  if tag = "h1" then some 1
  else if tag = "h2" then some 2
  else if tag = "h3" then some 3
  else if tag = "h4" then some 4
  else if tag = "h5" then some 5
  else if tag = "h6" then some 6
  else none

/-- One collected heading record: `{ depth, slug, text }`. -/
structure Heading where
  depth : Nat
  slug : String
  text : String
deriving DecidableEq

/-- Length of the longest string in the slugger state. -/
def maxLen (occ : List String) : Nat :=
  occ.foldr (fun s m => max s.length m) 0

/-- A disambiguating suffix that is longer than every string registered so
far, hence guaranteed fresh. -/
def freshSuffix (occ : List String) : String :=
  String.mk (List.replicate (maxLen occ + 1) 'x')

/-- Modelled from the spec: the `slug` method of `github-slugger` (§4.2 contract —
"unique among all identifiers resolved so far, deterministic given the
same call sequence").  The state `occ` is the list of slugs generated so
far; a base that is still free is returned verbatim, a clashing base gets
a deterministic fresh suffix.  (The real library uses numeric `-n`
suffixes; only uniqueness, determinism and keep-free-bases-verbatim are
relied on anywhere.) -/
def mkSlug (base : String) (occ : List String) : String :=
  if base ∈ occ then base ++ "-" ++ freshSuffix occ else base

/-- The resolution `(node.properties["id"] as string) || slugger.slug(text)` together
with the slugger-state update: a truthy (non-empty) pre-existing id is
kept verbatim and the slugger is not consulted; otherwise a slug is
generated from the text and registered. -/
def resolveSlug (pre : Option String) (txt : String) (occ : List String) :
    String × List String :=
  match pre with
  | some s => if s = "" then (mkSlug txt occ, mkSlug txt occ :: occ) else (s, occ)
  | none => (mkSlug txt occ, mkSlug txt occ :: occ)

mutual

/-- Modelled from the spec: `toText(node)` (hast-util-to-text), the
rendered text of a node — concatenation of descendant text values. -/
def textContentN : HNode → String
  | .element _ _ cs => textContentL cs
  | .comment _ => ""
  | .text v => v

/-- Rendered text of a node list, in document order. -/
def textContentL : List HNode → String
  | [] => ""
  | n :: rest => textContentN n ++ textContentL rest

end

mutual

/-- The heading-collection pass of `generateToc` (`visit(tree, "element", ...)`,
src/src/index.ts lines 90–105), one node at a time, in preorder: every
`h1`–`h6` element gets its text extracted and trimmed, its slug resolved
(pre-existing `id` kept when truthy, fresh slug otherwise), the slug
written back onto its `id` property, and a heading record emitted; all
other nodes are returned unchanged.  Returns the rewritten node, the
slugger state, and the heading records collected from this subtree. -/
def collectNode (n : HNode) (occ : List String) :
    HNode × List String × List Heading :=
  match n with
  | .text v => (.text v, occ, [])
  | .comment v => (.comment v, occ, [])
  | .element t p cs =>
    match headingDepth t with
    | some d =>
      let txt := strTrim (textContentL cs)
      let r := resolveSlug (getProp p "id") txt occ
      let rc := collectList cs r.2
      (.element t (setProp p "id" r.1) rc.1, rc.2.1, ⟨d, r.1, txt⟩ :: rc.2.2)
    | none =>
      let rc := collectList cs occ
      (.element t p rc.1, rc.2.1, rc.2.2)

/-- Heading collection over a node list, left to right (preorder visit),
threading the slugger state. -/
def collectList (ns : List HNode) (occ : List String) :
    List HNode × List String × List Heading :=
  match ns with
  | [] => ([], occ, [])
  | n :: rest =>
    let r := collectNode n occ
    let rr := collectList rest r.2.1
    (r.1 :: rr.1, rr.2.1, r.2.2 ++ rr.2.2)

end

/-- The message of the error thrown when the parents stack underflows
(src/src/index.ts line 139). -/
def invariantMsg : String :=
  "Parent node not found. Make sure the headings are sorted by depth."

/-- The tag `options.ordered ? "ol" : "ul"`. -/
def listTag (ordered : Bool) : String :=
  if ordered then "ol" else "ul"

/-- A list element with the given children — the root `toc` element and
every nested list created by `h(options.ordered ? "ol" : "ul", li)` have
empty properties. -/
def wrapList (ordered : Bool) (cs : List HNode) : HNode :=
  .element (listTag ordered) [] cs

/-- The list item `h("li", h("a", ..., heading.text))` whose anchor href is `#` followed by the slug. -/
def mkLi (h : Heading) : HNode :=
  .element "li" [] [.element "a" [("href", "#" ++ h.slug)] [.text h.text]]

/-- The shallower-transition pop loop (src/src/index.ts lines 134–143):
popping `k` times, each pop folding the current top frame — wrapped as a
finished nested list — into the frame below it, and failing with the
invariant error when no frame remains below.  The mutating original keeps
a live reference stack; here each frame holds the children accumulated so
far, and a nested list is materialised exactly when its frame is closed
(its content is complete at that point, so the two views coincide). -/
def popFrames (ordered : Bool) :
    Nat → List HNode → List (List HNode) → Except String (List HNode × List (List HNode))
  | 0, top, rest => .ok (top, rest)
  | k + 1, top, rest =>
    match rest with
    | [] => .error invariantMsg
    | next :: rs => popFrames ordered k (next ++ [wrapList ordered top]) rs

/-- The builder state: the children of the current (top) frame, the stack of
children of the enclosing frames (innermost first; the root frame is last), and
`currentDepth`. -/
structure BuildSt where
  top : List HNode
  rest : List (List HNode)
  depth : Nat

/-- One iteration of the `for (const heading of headings)` loop
(src/src/index.ts lines 113–148): skip headings beyond `maxDepth`, then
append / push a new frame / pop frames according to the sign of
`heading.depth - currentDepth`. -/
def buildStep (ordered : Bool) (maxDepth : Nat) (st : BuildSt) (h : Heading) :
    Except String BuildSt :=
  if h.depth > maxDepth then .ok st
  else
    let li := mkLi h
    if h.depth = st.depth then .ok ⟨st.top ++ [li], st.rest, h.depth⟩
    else if h.depth > st.depth then .ok ⟨[li], st.top :: st.rest, h.depth⟩
    else
      match popFrames ordered (st.depth - h.depth) st.top st.rest with
      | .error e => .error e
      | .ok pr => .ok ⟨pr.1 ++ [li], pr.2, h.depth⟩

/-- After the loop the still-open frames are closed bottom-up, yielding
the children of the root frame (in the original the nested lists were already
linked in place; closing releases the same tree). -/
def closeAll (ordered : Bool) : List HNode → List (List HNode) → List HNode
  | top, [] => top
  | top, next :: rs => closeAll ordered (next ++ [wrapList ordered top]) rs

/-- The outline builder core (src/src/index.ts lines 107–148): the `toc`
root element plus the heading loop.  `currentDepth` starts at
`headings[0].depth` — the first heading overall, before any `maxDepth`
filtering.  Returns the finished `toc` element, or the invariant error
when the pop loop underflows. -/
def buildToc (heads : List Heading) (maxDepth : Nat) (ordered : Bool) :
    Except String HNode :=
  match heads with
  | [] => .ok (wrapList ordered [])
  | h0 :: _ =>
    match heads.foldlM (buildStep ordered maxDepth) ⟨[], [], h0.depth⟩ with
    | .error e => .error e
    | .ok fin => .ok (wrapList ordered (closeAll ordered fin.top fin.rest))

/-- Modelled from the spec: the final
`fromHtml(options.template(toHtml(toc)), { fragment: true }).children`
step with the default template — serialization to HTML, wrapping in the
fixed `aside/h2/nav` container, and re-parsing are represented
structurally (insignificant whitespace text nodes omitted). -/
def wrapDefault (toc : HNode) : List HNode :=
  [.element "aside" [("class", "toc")]
    [.element "h2" [] [.text "Contents"],
     .element "nav" [] [toc]]]

/-- The function `generateToc(tree, options)` end to end (src/src/index.ts lines
80–151): collect the headings (mutating the heading ids of the tree), return
`[]` when no heading was collected, otherwise build the outline and wrap
it with the template.  Returns the generated nodes together with the
rewritten tree. -/
def generateTocNodes (rootChildren : List HNode) (maxDepth : Nat) (ordered : Bool) :
    Except String (List HNode × List HNode) :=
  let c := collectList rootChildren []
  match c.2.2 with
  | [] => .ok ([], c.1)
  | heads =>
    match buildToc heads maxDepth ordered with
    | .error e => .error e
    | .ok toc => .ok (wrapDefault toc, c.1)

/-- The marker test `node.value.trim().toLowerCase() !== "toc"`
(src/src/index.ts line 168). -/
def isTocText (v : String) : Bool :=
  strLower (strTrim v) = "toc"

/-- A marker comment node. -/
def isMarkerNode : HNode → Bool
  | .comment v => isTocText v
  | _ => false

/-- The condition `parent.type === "element" && parent.tagName === "p" &&
parent.children.length === 1` with the marker as that sole child — the
container that gets replaced wholesale (src/src/index.ts lines 178–183). -/
def isSoleMarkerP : HNode → Bool
  | .element t _ [.comment v] => t = "p" && isTocText v
  | _ => false

mutual

/-- Whether a marker comment occurs anywhere in the subtree — exactly
when the `visitParents` scan fires at least once, i.e. when `tocInserted`
ends up `true`. -/
def anyMarkerN : HNode → Bool
  | .element _ _ cs => anyMarkerL cs
  | .comment v => isTocText v
  | .text _ => false

/-- Predicate `anyMarkerN` over a node list. -/
def anyMarkerL : List HNode → Bool
  | [] => false
  | n :: rest => anyMarkerN n || anyMarkerL rest

end

mutual

/-- A non-marker node kept by the replacement pass: its children are
still scanned. -/
def processNode (toc : List HNode) : HNode → HNode
  | .element t p cs => .element t p (processChildren toc cs)
  | n => n

/-- The `visitParents(tree, "comment", ...)` replacement pass
(src/src/index.ts lines 167–186) on one children array, applied
recursively: a marker comment is spliced out and the `toc` nodes spliced
in; a `p` element whose sole child is a marker is replaced wholesale in
the children of its parent; every other element is kept and its children
processed in turn.  Two fidelity points of the live-array traversal are
preserved: the visit continues at the array index after the splice point,
so when `toc` is empty the node following a replaced marker is skipped
(left unvisited); and the spliced-in nodes are not themselves scanned —
which coincides with the real traversal whenever the generated `toc`
nodes contain no marker comments, as is the case for every outline this
plugin produces with its default template (with a marker inside the
spliced nodes the original visit would re-splice indefinitely). -/
def processChildren (toc : List HNode) : List HNode → List HNode
  | [] => []
  | n :: rest =>
    if isMarkerNode n || isSoleMarkerP n then
      match toc with
      | [] =>
        match rest with
        | [] => []
        | r :: rs => r :: processChildren toc rs
      | _ => toc ++ processChildren toc rest
    else
      processNode toc n :: processChildren toc rest

end

/-- The whole transformer body after `generateToc` (src/src/index.ts
lines 165–193): replace at the markers, and when the scan never fired
(`!tocInserted`) prepend the `toc` nodes at the very start
(`tree.children.unshift(...tocNodes)`). -/
def spliceToc (toc : List HNode) (rootChildren : List HNode) : List HNode :=
  if anyMarkerL rootChildren then processChildren toc rootChildren
  else toc ++ rootChildren

/-- The full plugin transformer on a document root: generate the outline
(rewriting heading `id`s in place) and splice it into the rewritten
tree. -/
def applyPlugin (maxDepth : Nat) (ordered : Bool) (rootChildren : List HNode) :
    Except String (List HNode) :=
  match generateTocNodes rootChildren maxDepth ordered with
  | .error e => .error e
  | .ok r => .ok (spliceToc r.1 r.2)

mutual

/-- Flattening an outline back to a depth sequence: each `li` is recorded
at the list-nesting level it sits in (a `ul`/`ol` opens one level deeper),
in document order. -/
def depthsN (lvl : Nat) : HNode → List Nat
  | .element t _ cs =>
    if t = "ul" ∨ t = "ol" then depthsL (lvl + 1) cs
    else if t = "li" then lvl :: depthsL lvl cs
    else depthsL lvl cs
  | .comment _ => []
  | .text _ => []

/-- Function `depthsN` over a node list, in document order. -/
def depthsL (lvl : Nat) : List HNode → List Nat
  | [] => []
  | n :: rest => depthsN lvl n ++ depthsL lvl rest

end

/-- Depth sequence of a whole outline: the root list element puts its
items at level 1. -/
def tocDepths (toc : HNode) : List Nat :=
  depthsN 0 toc

/-- Number of children of an element node (0 for the other kinds); used
to count top-level outline items. -/
def childCount : HNode → Nat
  | .element _ _ cs => cs.length
  | _ => 0

/-- Whether the props record has an id property set. -/
def hasId (p : List (String × String)) : Bool :=
  (getProp p "id").isSome

mutual

/-- Nodes equal up to the id property of heading elements: same
constructors and contents throughout, with heading elements allowed to
differ in their id property only and every other node (and every other
property) required identical. -/
def sameExceptIdN : HNode → HNode → Bool
  | .text v, .text w => v = w
  | .comment v, .comment w => v = w
  | .element t p cs, .element u q ds =>
    t = u && sameExceptIdL cs ds &&
      (if (headingDepth t).isSome then eraseProp p "id" = eraseProp q "id"
       else p = q)
  | _, _ => false

/-- Relation `sameExceptIdN` over node lists, position by position. -/
def sameExceptIdL : List HNode → List HNode → Bool
  | [], [] => true
  | n :: r, m :: s => sameExceptIdN n m && sameExceptIdL r s
  | _, _ => false

end

mutual

/-- Every heading element in the subtree has an id property. -/
def allIdN : HNode → Bool
  | .element t p cs =>
    (if (headingDepth t).isSome then hasId p else true) && allIdL cs
  | _ => true

/-- Predicate `allIdN` over a node list. -/
def allIdL : List HNode → Bool
  | [] => true
  | n :: r => allIdN n && allIdL r

end

/-- Every failure of the pop loop carries the invariant message. -/
theorem popFrames_error_eq (o : Bool) :
    ∀ (k : Nat) (top : List HNode) (rest : List (List HNode)) (e : String),
      popFrames o k top rest = .error e → e = invariantMsg
  | 0, top, rest, e => by simp [popFrames]
  | k + 1, top, [], e => by
    intro h
    simp only [popFrames] at h
    cases h
    rfl
  | k + 1, top, next :: rs, e => by
    simp only [popFrames]
    exact popFrames_error_eq o k (next ++ [wrapList o top]) rs e

/-- Every failure of a build step carries the invariant message. -/
theorem buildStep_error_eq (o : Bool) (maxd : Nat) (st : BuildSt) (h : Heading)
    (e : String) (he : buildStep o maxd st h = .error e) : e = invariantMsg := by
  by_cases h1 : h.depth > maxd
  · simp [buildStep, h1] at he
  · by_cases h2 : h.depth = st.depth
    · rw [h2] at h1
      simp [buildStep, h1, h2] at he
    · by_cases h3 : h.depth > st.depth
      · simp [buildStep, h1, h2, h3] at he
      · cases hp : popFrames o (st.depth - h.depth) st.top st.rest with
        | ok pr => simp [buildStep, h1, h2, h3, hp] at he
        | error e2 =>
          simp [buildStep, h1, h2, h3, hp] at he
          exact he ▸ popFrames_error_eq o (st.depth - h.depth) st.top st.rest e2 hp

/-- Every failure of the heading loop carries the invariant message. -/
theorem buildLoop_error_eq (o : Bool) (maxd : Nat) :
    ∀ (hs : List Heading) (st : BuildSt) (e : String),
      List.foldlM (buildStep o maxd) st hs = .error e → e = invariantMsg
  | [], st, e => by
    intro he
    exact Except.noConfusion he
  | h :: t, st, e => by
    rw [List.foldlM_cons]
    cases hs2 : buildStep o maxd st h with
    | error e2 =>
      intro he
      have he2 : (Except.error e2 : Except String BuildSt) = Except.error e := he
      injection he2 with hee
      exact hee ▸ buildStep_error_eq o maxd st h e2 hs2
    | ok st2 =>
      show List.foldlM (buildStep o maxd) st2 t = .error e → e = invariantMsg
      exact buildLoop_error_eq o maxd t st2 e

/-- Headings beyond maxDepth are no-ops for the loop: filtering them out
of the iterated list leaves the fold unchanged. -/
theorem buildLoop_filter (o : Bool) (maxd : Nat) :
    ∀ (hs : List Heading) (st : BuildSt),
      List.foldlM (buildStep o maxd) st (hs.filter (fun h => h.depth ≤ maxd))
        = List.foldlM (buildStep o maxd) st hs
  | [], st => rfl
  | h :: t, st => by
    by_cases hp : h.depth ≤ maxd
    · rw [List.filter_cons_of_pos (by simpa using hp), List.foldlM_cons, List.foldlM_cons]
      cases hs2 : buildStep o maxd st h with
      | error e2 => rfl
      | ok st2 =>
        show List.foldlM (buildStep o maxd) st2 (t.filter (fun h => h.depth ≤ maxd))
          = List.foldlM (buildStep o maxd) st2 t
        exact buildLoop_filter o maxd t st2
    · rw [List.filter_cons_of_neg (by simpa using hp), List.foldlM_cons]
      have hgt : maxd < h.depth := Nat.not_le.mp hp
      have hstep : buildStep o maxd st h = .ok st := by simp [buildStep, hgt]
      rw [hstep]
      show List.foldlM (buildStep o maxd) st (t.filter (fun h => h.depth ≤ maxd))
        = List.foldlM (buildStep o maxd) st t
      exact buildLoop_filter o maxd t st

/-- C1 counterexample: for headings [(1,A),(2,B),(1,C)] with maxDepth 3
the root list has three children, not the two top-level items the claim
asserts — the nested list holding B is appended to the root list itself
(a sibling after item A), not attached as a child of item A. -/
theorem c1_counterexample :
    (buildToc [⟨1, "a", "A"⟩, ⟨2, "b", "B"⟩, ⟨1, "c", "C"⟩] 3 false).map childCount
      = .ok 3 ∧ (3 : Nat) ≠ 2 :=
  ⟨rfl, by decide⟩

/-- C1 amended: on a deeper transition the builder appends the newly
created nested list as a further child of the current frame — a sibling
following the last appended list item — not as a child of that item; for
headings [(1,A),(2,B),(1,C)] with maxDepth 3 the outline is a single list
with three children in order: item A, the nested list holding B, and item
C. -/
theorem c1_amended :
    buildToc [⟨1, "a", "A"⟩, ⟨2, "b", "B"⟩, ⟨1, "c", "C"⟩] 3 false
      = .ok (.element "ul" []
          [mkLi ⟨1, "a", "A"⟩,
           .element "ul" [] [mkLi ⟨2, "b", "B"⟩],
           mkLi ⟨1, "c", "C"⟩]) := rfl

/-- C2 counterexample: for headings [(2,X),(1,Y)] with the default
maxDepth 3 the build does not complete — the shallower transition for Y
pops the only frame and raises the invariant error. -/
theorem c2_counterexample :
    buildToc [⟨2, "x", "X"⟩, ⟨1, "y", "Y"⟩] 3 false = .error invariantMsg := rfl

/-- C2 amended: the root frame does open at depth 2 for a first heading of
depth 2 (a lone depth-2 heading builds fine), but the subsequent depth-1
heading Y underflows the stack: the build of [(2,X),(1,Y)] raises the
invariant violation. -/
theorem c2_amended :
    buildToc [⟨2, "x", "X"⟩] 3 false = .ok (wrapList false [mkLi ⟨2, "x", "X"⟩])
    ∧ buildToc [⟨2, "x", "X"⟩, ⟨1, "y", "Y"⟩] 3 false = .error invariantMsg :=
  ⟨rfl, rfl⟩

/-- C3 counterexample: a skipped over-depth heading does affect the
result — with maxDepth 3, the sequence [(5,a),(2,b)] initialises the
current depth from the filtered-out first heading and then underflows on
b, while the sequence with the over-depth heading removed builds a
one-item outline. -/
theorem c3_counterexample :
    buildToc [⟨5, "a", "a"⟩, ⟨2, "b", "b"⟩] 3 false = .error invariantMsg
    ∧ buildToc [⟨2, "b", "b"⟩] 3 false = .ok (wrapList false [mkLi ⟨2, "b", "b"⟩]) :=
  ⟨rfl, rfl⟩

/-- C3 amended: headings whose depth exceeds maxDepth produce no node and
do not change the loop state, so whenever the first heading overall is
itself eligible, building the sequence equals building it with all
over-depth headings removed; only the initialisation of the current depth
from the unfiltered first heading can make the two differ. -/
theorem c3_amended (h0 : Heading) (t : List Heading) (maxd : Nat) (o : Bool)
    (hle : h0.depth ≤ maxd) :
    buildToc (h0 :: t) maxd o
      = buildToc ((h0 :: t).filter (fun h => h.depth ≤ maxd)) maxd o := by
  have hfilter : (h0 :: t).filter (fun h => h.depth ≤ maxd)
      = h0 :: t.filter (fun h => h.depth ≤ maxd) :=
    List.filter_cons_of_pos (by simpa using hle)
  rw [hfilter]
  show (match List.foldlM (buildStep o maxd) ⟨[], [], h0.depth⟩ (h0 :: t) with
    | Except.error e => Except.error e
    | Except.ok fin => Except.ok (wrapList o (closeAll o fin.top fin.rest)))
    = (match List.foldlM (buildStep o maxd) ⟨[], [], h0.depth⟩
        (h0 :: t.filter (fun h => h.depth ≤ maxd)) with
    | Except.error e => Except.error e
    | Except.ok fin => Except.ok (wrapList o (closeAll o fin.top fin.rest)))
  rw [← hfilter, buildLoop_filter o maxd (h0 :: t) ⟨[], [], h0.depth⟩]

/-- C3 witness: the amended theorem applied to [(1,a),(5,b)] with
maxDepth 3, whose first heading is eligible. -/
theorem c3_amended_witness :
    buildToc [⟨1, "a", "a"⟩, ⟨5, "b", "b"⟩] 3 false
      = buildToc ([⟨1, "a", "a"⟩, ⟨5, "b", "b"⟩].filter (fun h => h.depth ≤ 3)) 3 false :=
  c3_amended ⟨1, "a", "a"⟩ [⟨5, "b", "b"⟩] 3 false (by decide)

/-- C4 amended: the only failure of the builder is the invariant
violation (every error result carries exactly that message), and an empty
heading sequence yields an empty but valid outline; the violation is
however not confined to malformed sequences — it also fires on heading
sequences in valid document order whose depth gap-increase is followed by
a partial decrease, such as depths [1,4,2] with maxDepth 6. -/
theorem c4_amended :
    (∀ (maxd : Nat) (o : Bool), buildToc [] maxd o = .ok (wrapList o []))
    ∧ (∀ (hs : List Heading) (maxd : Nat) (o : Bool) (e : String),
        buildToc hs maxd o = .error e → e = invariantMsg)
    ∧ buildToc [⟨1, "a", "a"⟩, ⟨4, "b", "b"⟩, ⟨2, "c", "c"⟩] 6 true
        = .error invariantMsg := by
  refine ⟨fun maxd o => rfl, ?_, rfl⟩
  intro hs maxd o e he
  match hs with
  | [] => exact Except.noConfusion he
  | h0 :: t =>
    simp only [buildToc] at he
    cases hl : List.foldlM (buildStep o maxd) ⟨[], [], h0.depth⟩ (h0 :: t) with
    | error e2 =>
      rw [hl] at he
      injection he with hee
      exact hee ▸ buildLoop_error_eq o maxd (h0 :: t) ⟨[], [], h0.depth⟩ e2 hl
    | ok fin =>
      rw [hl] at he
      exact Except.noConfusion he

/-- C4 witness: the amended theorem applied at concrete inputs — the
empty sequence with maxDepth 3 unordered, and the failing build of depths
[3,1], whose error message is the invariant message. -/
theorem c4_amended_witness :
    buildToc [] 3 false = .ok (wrapList false [])
    ∧ invariantMsg = invariantMsg :=
  ⟨c4_amended.1 3 false,
   c4_amended.2.1 [⟨3, "p", "p"⟩, ⟨1, "q", "q"⟩] 3 false invariantMsg rfl⟩

/-- C4 counterexample: the heading depths [1,4,2] are in valid document
order, yet with maxDepth 6 the build raises the invariant error — the
gap-increase 1 to 4 opens a single frame while the decrease 4 to 2
requests two pops. -/
theorem c4_counterexample :
    buildToc [⟨1, "a", "a"⟩, ⟨4, "b", "b"⟩, ⟨2, "c", "c"⟩] 6 false = .error invariantMsg := rfl

/-- Marker existence distributes over list append. -/
theorem anyMarkerL_append (a b : List HNode) :
    anyMarkerL (a ++ b) = (anyMarkerL a || anyMarkerL b) := by
  induction a with
  | nil => simp [anyMarkerL]
  | cons n r ih => simp [anyMarkerL, ih, Bool.or_assoc]

mutual

/-- A node kept by the replacement pass (hence not itself a marker)
contains no marker afterwards, provided the spliced outline (nonempty,
head `t0`) is marker-free. -/
theorem processNode_no_marker (t0 : HNode) (ts : List HNode)
    (hm : anyMarkerL (t0 :: ts) = false) :
    ∀ (n : HNode), isMarkerNode n = false →
      anyMarkerN (processNode (t0 :: ts) n) = false
  | .element t p cs, _ => by
    simp only [processNode, anyMarkerN]
    exact processChildren_no_marker t0 ts hm cs
  | .comment v, h => by
    simp only [processNode, anyMarkerN]
    simpa [isMarkerNode] using h
  | .text v, _ => by simp [processNode, anyMarkerN]

/-- After the replacement pass with a nonempty, marker-free outline no
marker comment remains anywhere in the processed children. -/
theorem processChildren_no_marker (t0 : HNode) (ts : List HNode)
    (hm : anyMarkerL (t0 :: ts) = false) :
    ∀ (ns : List HNode), anyMarkerL (processChildren (t0 :: ts) ns) = false
  | [] => by simp [processChildren, anyMarkerL]
  | n :: rest => by
    by_cases hmk : (isMarkerNode n || isSoleMarkerP n) = true
    · simp only [processChildren, hmk, if_true]
      rw [anyMarkerL_append]
      rw [hm, processChildren_no_marker t0 ts hm rest]
      rfl
    · have hmk2 : (isMarkerNode n || isSoleMarkerP n) = false :=
        Bool.not_eq_true _ ▸ hmk
      have hn : isMarkerNode n = false := (Bool.or_eq_false_iff.mp hmk2).1
      simp only [processChildren, hmk2, Bool.false_eq_true, if_false, anyMarkerL]
      rw [processNode_no_marker t0 ts hm n hn,
        processChildren_no_marker t0 ts hm rest]
      rfl

end

/-- C5 amended: when no marker comment exists anywhere in the document
the outline nodes are prepended at the very start; when markers exist the
replacement is performed at every marker occurrence (so, for a nonempty
marker-free outline, no marker survives in the output — each one was
replaced), not only at the first. -/
theorem c5_amended :
    (∀ (toc cs : List HNode), anyMarkerL cs = false → spliceToc toc cs = toc ++ cs)
    ∧ (∀ (toc cs : List HNode), anyMarkerL toc = false → toc ≠ [] →
        anyMarkerL (spliceToc toc cs) = false) := by
  constructor
  · intro toc cs h
    simp [spliceToc, h]
  · intro toc cs hm hne
    match toc, hne with
    | t0 :: ts, _ =>
      by_cases h : anyMarkerL cs = true
      · simp only [spliceToc, h, if_true]
        exact processChildren_no_marker t0 ts hm cs
      · have h2 : anyMarkerL cs = false := Bool.not_eq_true _ ▸ h
        simp only [spliceToc, h2, Bool.false_eq_true, if_false]
        rw [anyMarkerL_append, hm, h2]
        rfl

/-- C5 witness: the amended theorem applied at concrete inputs — a
marker-free document gets the outline prepended, and a document that is a
lone marker comment ends up marker-free after the splice. -/
theorem c5_amended_witness :
    spliceToc [HNode.element "aside" [] []] [HNode.text "x"]
      = [HNode.element "aside" [] []] ++ [HNode.text "x"]
    ∧ anyMarkerL (spliceToc [HNode.element "aside" [] []] [HNode.comment "toc"]) = false :=
  ⟨c5_amended.1 [HNode.element "aside" [] []] [HNode.text "x"] rfl,
   c5_amended.2 [HNode.element "aside" [] []] [HNode.comment "toc"] rfl
     (by simp)⟩

/-- C5 counterexample: with two marker comments in the document, both are
replaced by the outline — the result carries the outline at both
positions and no marker remains, so more than one insertion occurs. -/
theorem c5_counterexample :
    spliceToc [.element "aside" [] []] [.comment "toc", .text "x", .comment "toc"]
      = [.element "aside" [] [], .text "x", .element "aside" [] []]
    ∧ anyMarkerL (spliceToc [.element "aside" [] []]
        [.comment "toc", .text "x", .comment "toc"]) = false :=
  ⟨rfl, rfl⟩

/-- Every registered slug is at most as long as the recorded maximum. -/
theorem length_le_maxLen : ∀ (occ : List String) (s : String), s ∈ occ → s.length ≤ maxLen occ
  | a :: t, s, h => by
    rcases List.mem_cons.mp h with h1 | h2
    · subst h1
      simp only [maxLen, List.foldr_cons]
      exact Nat.le_max_left _ _
    · have := length_le_maxLen t s h2
      simp only [maxLen, List.foldr_cons] at *
      omega

/-- A generated slug is never one of the slugs generated before: free
bases are returned as they are, clashing ones get a suffix that makes the
result strictly longer than everything registered. -/
theorem mkSlug_not_mem (base : String) (occ : List String) : mkSlug base occ ∉ occ := by
  by_cases h : base ∈ occ
  · simp only [mkSlug, h, if_true]
    intro hmem
    have hle := length_le_maxLen occ _ hmem
    rw [String.length_append, String.length_append] at hle
    have hfs : (freshSuffix occ).length = maxLen occ + 1 := by
      simp [freshSuffix, String.length, List.length_replicate]
    omega
  · simp only [mkSlug]
    rw [if_neg h]
    exact h

/-- Slug resolution keeps the slugger state duplicate-free. -/
theorem resolveSlug_nodup (pre : Option String) (txt : String) (occ : List String)
    (h : occ.Nodup) : ((resolveSlug pre txt occ).2).Nodup := by
  cases pre with
  | none => exact List.nodup_cons.mpr ⟨mkSlug_not_mem txt occ, h⟩
  | some s =>
    by_cases hs : s = ""
    · simp only [resolveSlug, hs, if_true]
      exact List.nodup_cons.mpr ⟨mkSlug_not_mem txt occ, h⟩
    · simp only [resolveSlug, hs, if_false]
      exact h

mutual

/-- Collecting one node keeps the slugger state duplicate-free. -/
theorem collectNode_nodup : ∀ (n : HNode) (occ : List String), occ.Nodup →
    ((collectNode n occ).2.1).Nodup
  | .text _, _, h => h
  | .comment _, _, h => h
  | .element t p cs, occ, h => by
    cases hd : headingDepth t with
    | some d =>
      simp only [collectNode, hd]
      exact collectList_nodup cs _ (resolveSlug_nodup (getProp p "id") _ occ h)
    | none =>
      simp only [collectNode, hd]
      exact collectList_nodup cs occ h

/-- Collecting a node list keeps the slugger state duplicate-free. -/
theorem collectList_nodup : ∀ (ns : List HNode) (occ : List String), occ.Nodup →
    ((collectList ns occ).2.1).Nodup
  | [], _, h => h
  | n :: rest, occ, h =>
    collectList_nodup rest _ (collectNode_nodup n occ h)

end

/-- C6 amended: the freshly generated identifiers of a document are
pairwise distinct among themselves — the slugger registers every slug it
generates and never returns a registered one again; pre-existing
identifiers are kept verbatim without being registered, so no uniqueness
is enforced between a fresh slug and a pre-existing identifier. -/
theorem c6_amended : ∀ (cs : List HNode), ((collectList cs []).2.1).Nodup :=
  fun cs => collectList_nodup cs [] List.nodup_nil

/-- C6 counterexample: a pre-existing identifier "foo" on the first
heading (pairwise distinct among pre-existing ones) collides with the
slug freshly generated for a second heading whose text is "foo" — the
assigned identifiers are not pairwise distinct. -/
theorem c6_counterexample :
    ((collectList [.element "h1" [("id", "foo")] [.text "bar"],
                   .element "h2" [] [.text "foo"]] []).2.2).map Heading.slug
      = ["foo", "foo"]
    ∧ ¬ (["foo", "foo"] : List String).Nodup :=
  ⟨rfl, by decide⟩

/-- Reading a key from a record whose prefix avoids the key finds the
appended binding. -/
theorem getProp_append_single (k v : String) :
    ∀ (l : List (String × String)), (∀ x ∈ l, ¬ x.1 = k) →
      getProp (l ++ [(k, v)]) k = some v
  | [], _ => by simp [getProp]
  | a :: t, h => by
    have ha : ¬ a.1 = k := h a (List.mem_cons_self a t)
    have ht := getProp_append_single k v t (fun x hx => h x (List.mem_cons_of_mem a hx))
    simp only [getProp, List.cons_append] at *
    rw [List.find?_cons_of_neg]
    · exact ht
    · simpa using ha

/-- Setting a property then reading it yields the set value. -/
theorem getProp_setProp (p : List (String × String)) (k v : String) :
    getProp (setProp p k v) k = some v := by
  refine getProp_append_single k v _ ?_
  intro x hx
  simpa using (List.mem_filter.mp hx).2

/-- Setting a property does not disturb the record with that property
removed. -/
theorem eraseProp_setProp (p : List (String × String)) (k v : String) :
    eraseProp (setProp p k v) k = eraseProp p k := by
  simp [eraseProp, setProp, List.filter_append, List.filter_filter]

mutual

/-- Collection rewrites a node only in the id property of heading
elements. -/
theorem collectNode_same : ∀ (n : HNode) (occ : List String),
    sameExceptIdN n (collectNode n occ).1 = true
  | .text _, _ => by simp [collectNode, sameExceptIdN]
  | .comment _, _ => by simp [collectNode, sameExceptIdN]
  | .element t p cs, occ => by
    cases hd : headingDepth t with
    | some d =>
      simp only [collectNode]
      rw [hd]
      simp only [sameExceptIdN, hd, Option.isSome_some, if_true, eraseProp_setProp]
      simp [collectList_same cs _]
    | none =>
      simp only [collectNode]
      rw [hd]
      simp only [sameExceptIdN, hd, Option.isSome_none, Bool.false_eq_true, if_false]
      simp [collectList_same cs occ]
termination_by n _ => sizeOf n

/-- Collection rewrites a node list only in the id properties of heading
elements. -/
theorem collectList_same : ∀ (ns : List HNode) (occ : List String),
    sameExceptIdL ns (collectList ns occ).1 = true
  | [], _ => rfl
  | n :: rest, occ => by
    simp only [collectList, sameExceptIdL]
    simp [collectNode_same n occ, collectList_same rest _]
termination_by ns _ => sizeOf ns

end

mutual

/-- After collection every heading element in the subtree carries an
id. -/
theorem collectNode_allId : ∀ (n : HNode) (occ : List String),
    allIdN (collectNode n occ).1 = true
  | .text _, _ => rfl
  | .comment _, _ => rfl
  | .element t p cs, occ => by
    cases hd : headingDepth t with
    | some d =>
      simp only [collectNode]
      rw [hd]
      simp only [allIdN, hd, Option.isSome_some, if_true, hasId, getProp_setProp]
      simp [collectList_allId cs _]
    | none =>
      simp only [collectNode]
      rw [hd]
      simp only [allIdN, hd, Option.isSome_none, Bool.false_eq_true, if_false,
        Bool.true_and]
      exact collectList_allId cs occ
termination_by n _ => sizeOf n

/-- After collection every heading element in the node list carries an
id. -/
theorem collectList_allId : ∀ (ns : List HNode) (occ : List String),
    allIdL (collectList ns occ).1 = true
  | [], _ => rfl
  | n :: rest, occ => by
    simp only [collectList, allIdL]
    simp [collectNode_allId n occ, collectList_allId rest _]
termination_by ns _ => sizeOf ns

end

/-- C9: the only mutation the outline generation performs on pre-existing
document nodes is setting the id property of heading elements — the
rewritten tree is node-for-node identical to the original except possibly
for heading ids (all non-heading nodes and all other properties of
heading nodes unchanged) — and after collection every heading element
carries an id; the collection pass takes no maxDepth, so this covers
headings of every depth, filtering happening only later in the builder
loop. -/
theorem c9_frame_effect : ∀ (cs : List HNode) (occ : List String),
    sameExceptIdL cs (collectList cs occ).1 = true
    ∧ allIdL (collectList cs occ).1 = true :=
  fun cs occ => ⟨collectList_same cs occ, collectList_allId cs occ⟩

/-- C7: building the outline for a heading sequence with depths
[1,2,3,2,1] under maxDepth 3 and flattening it back to a depth sequence
(each list item recorded at its list-nesting level, in document order)
reproduces exactly [1,2,3,2,1]. -/
theorem c7_roundtrip_depths :
    (buildToc [⟨1, "a", "a"⟩, ⟨2, "b", "b"⟩, ⟨3, "c", "c"⟩,
               ⟨2, "d", "d"⟩, ⟨1, "e", "e"⟩] 3 false).map tocDepths
      = .ok [1, 2, 3, 2, 1] := rfl

/-- C10: a document with zero headings and a document whose headings are
all deeper than maxDepth produce different outputs — with zero headings
the generated node sequence is empty (the template is never applied) and
a sole-child-paragraph marker is replaced by nothing, whereas with a
single h4 heading under maxDepth 3 the template wraps an empty list into
one non-empty aside node that is spliced over the marker paragraph. -/
theorem c10_empty_vs_filtered :
    generateTocNodes [.element "p" [] [.comment "toc"], .text "z"] 3 false
      = .ok ([], [.element "p" [] [.comment "toc"], .text "z"])
    ∧ applyPlugin 3 false [.element "p" [] [.comment "toc"], .text "z"]
      = .ok [.text "z"]
    ∧ (generateTocNodes [.element "h4" [] [.text "deep"],
          .element "p" [] [.comment "toc"]] 3 false).map (fun r => r.1.length)
      = .ok 1
    ∧ applyPlugin 3 false [.element "h4" [] [.text "deep"],
          .element "p" [] [.comment "toc"]]
      = .ok [.element "h4" [("id", "deep")] [.text "deep"],
             .element "aside" [("class", "toc")]
               [.element "h2" [] [.text "Contents"],
                .element "nav" [] [.element "ul" [] []]]] :=
  ⟨rfl, rfl, rfl, rfl⟩

mutual

theorem textContent_collect_n : ∀ (n : HNode) (occ : List String),
    textContentN (collectNode n occ).1 = textContentN n
  | .text _, _ => rfl
  | .comment _, _ => rfl
  | .element t p cs, occ => by
    cases hd : headingDepth t with
    | some d =>
      simp only [collectNode]
      rw [hd]
      simp only [textContentN]
      exact textContent_collect_l cs _
    | none =>
      simp only [collectNode]
      rw [hd]
      simp only [textContentN]
      exact textContent_collect_l cs occ
termination_by n _ => sizeOf n

theorem textContent_collect_l : ∀ (ns : List HNode) (occ : List String),
    textContentL (collectList ns occ).1 = textContentL ns
  | [], _ => rfl
  | n :: rest, occ => by
    simp only [collectList, textContentL]
    rw [textContent_collect_n n occ, textContent_collect_l rest _]
termination_by ns _ => sizeOf ns

end

theorem setProp_setProp (p : List (String × String)) (k v w : String) :
    setProp (setProp p k v) k w = setProp p k w := by
  simp [setProp, List.filter_append, List.filter_filter]

theorem mkSlug_eq_empty {base : String} {occ : List String}
    (h : mkSlug base occ = "") : base = "" ∧ base ∉ occ := by
  by_cases hm : base ∈ occ
  · exfalso
    simp only [mkSlug, hm, if_true] at h
    have hl := congrArg String.length h
    rw [String.length_append, String.length_append] at hl
    have h0 : ("" : String).length = 0 := rfl
    have h1 : ("-" : String).length = 1 := rfl
    rw [h0, h1] at hl
    omega
  · simp only [mkSlug, hm, if_false] at h
    exact ⟨h, hm⟩

theorem mkSlug_empty_not_mem {occ : List String} (h : ("" : String) ∉ occ) :
    mkSlug "" occ = "" := by
  simp [mkSlug, h]

theorem resolveSlug_idem_gen (txt : String) (occ1 occ2 : List String)
    (h : ("" : String) ∈ occ2 → ("" : String) ∈ occ1) :
    (resolveSlug (some (mkSlug txt occ1)) txt occ2).1 = mkSlug txt occ1
    ∧ (("" : String) ∈ (resolveSlug (some (mkSlug txt occ1)) txt occ2).2 →
        ("" : String) ∈ mkSlug txt occ1 :: occ1) := by
  by_cases h1 : mkSlug txt occ1 = ""
  · have he := mkSlug_eq_empty h1
    have hnot1 : ("" : String) ∉ occ1 := he.1 ▸ he.2
    have hnot2 : ("" : String) ∉ occ2 := fun hin => hnot1 (h hin)
    rw [h1]
    simp only [resolveSlug, if_pos rfl]
    constructor
    · rw [he.1]
      exact mkSlug_empty_not_mem hnot2
    · exact fun _ => List.mem_cons_self _ _
  · simp only [resolveSlug, if_neg h1]
    refine ⟨?_, fun hin => List.mem_cons_of_mem _ (h hin)⟩
    trivial

theorem resolveSlug_idem (pre : Option String) (txt : String)
    (occ1 occ2 : List String) (h : ("" : String) ∈ occ2 → ("" : String) ∈ occ1) :
    (resolveSlug (some (resolveSlug pre txt occ1).1) txt occ2).1
        = (resolveSlug pre txt occ1).1
    ∧ (("" : String) ∈ (resolveSlug (some (resolveSlug pre txt occ1).1) txt occ2).2 →
        ("" : String) ∈ (resolveSlug pre txt occ1).2) := by
  cases pre with
  | none =>
    have hr : resolveSlug none txt occ1 = (mkSlug txt occ1, mkSlug txt occ1 :: occ1) := rfl
    rw [hr]
    exact resolveSlug_idem_gen txt occ1 occ2 h
  | some s =>
    by_cases hs : s = ""
    · subst hs
      have hr : resolveSlug (some "") txt occ1
          = (mkSlug txt occ1, mkSlug txt occ1 :: occ1) := rfl
      rw [hr]
      exact resolveSlug_idem_gen txt occ1 occ2 h
    · have hr : resolveSlug (some s) txt occ1 = (s, occ1) := by
        simp [resolveSlug, hs]
      have hr2 : resolveSlug (some s) txt occ2 = (s, occ2) := by
        simp [resolveSlug, hs]
      rw [hr]
      rw [hr2]
      exact ⟨rfl, h⟩



/-- Unfolding of node collection at a heading element. -/
theorem collectNode_heading_eq (t : String) (p : List (String × String))
    (cs : List HNode) (occ : List String) (d : Nat) (hd : headingDepth t = some d) :
    collectNode (.element t p cs) occ
      = (.element t (setProp p "id"
            (resolveSlug (getProp p "id") (strTrim (textContentL cs)) occ).1)
          (collectList cs
            (resolveSlug (getProp p "id") (strTrim (textContentL cs)) occ).2).1,
         (collectList cs
            (resolveSlug (getProp p "id") (strTrim (textContentL cs)) occ).2).2.1,
         ⟨d, (resolveSlug (getProp p "id") (strTrim (textContentL cs)) occ).1,
            strTrim (textContentL cs)⟩ ::
           (collectList cs
            (resolveSlug (getProp p "id") (strTrim (textContentL cs)) occ).2).2.2) := by
  simp only [collectNode]
  rw [hd]

/-- Unfolding of node collection at a non-heading element. -/
theorem collectNode_nonheading_eq (t : String) (p : List (String × String))
    (cs : List HNode) (occ : List String) (hd : headingDepth t = none) :
    collectNode (.element t p cs) occ
      = (.element t p (collectList cs occ).1, (collectList cs occ).2.1,
         (collectList cs occ).2.2) := by
  simp only [collectNode]
  rw [hd]

mutual

/-- Second collection runs are futile on a node already collected: same
rewritten node, same heading records, and an empty-string slug can only
be registered the second time if it was the first time. -/
theorem collect_idem_n : ∀ (n : HNode) (occ1 occ2 : List String),
    (("" : String) ∈ occ2 → ("" : String) ∈ occ1) →
    (collectNode (collectNode n occ1).1 occ2).1 = (collectNode n occ1).1
    ∧ (collectNode (collectNode n occ1).1 occ2).2.2 = (collectNode n occ1).2.2
    ∧ (("" : String) ∈ (collectNode (collectNode n occ1).1 occ2).2.1 →
        ("" : String) ∈ (collectNode n occ1).2.1)
  | .text _, _, _, h => ⟨rfl, rfl, h⟩
  | .comment _, _, _, h => ⟨rfl, rfl, h⟩
  | .element t p cs, occ1, occ2, h => by
    cases hd : headingDepth t with
    | none =>
      rw [collectNode_nonheading_eq t p cs occ1 hd]
      rw [collectNode_nonheading_eq t p (collectList cs occ1).1 occ2 hd]
      obtain ⟨e1, e2, e3⟩ := collect_idem_l cs occ1 occ2 h
      exact ⟨by rw [e1], e2, e3⟩
    | some d =>
      rw [collectNode_heading_eq t p cs occ1 d hd]
      rw [collectNode_heading_eq t _ _ occ2 d hd]
      rw [getProp_setProp]
      rw [textContent_collect_l]
      obtain ⟨ri1, ri2⟩ :=
        resolveSlug_idem (getProp p "id") (strTrim (textContentL cs)) occ1 occ2 h
      rw [ri1]
      obtain ⟨l1, l2, l3⟩ := collect_idem_l cs
        (resolveSlug (getProp p "id") (strTrim (textContentL cs)) occ1).2
        (resolveSlug (some (resolveSlug (getProp p "id")
          (strTrim (textContentL cs)) occ1).1) (strTrim (textContentL cs)) occ2).2
        ri2
      rw [setProp_setProp, l1, l2]
      exact ⟨rfl, rfl, l3⟩
termination_by n _ _ _ => sizeOf n

/-- List version of `collect_idem_n`. -/
theorem collect_idem_l : ∀ (ns : List HNode) (occ1 occ2 : List String),
    (("" : String) ∈ occ2 → ("" : String) ∈ occ1) →
    (collectList (collectList ns occ1).1 occ2).1 = (collectList ns occ1).1
    ∧ (collectList (collectList ns occ1).1 occ2).2.2 = (collectList ns occ1).2.2
    ∧ (("" : String) ∈ (collectList (collectList ns occ1).1 occ2).2.1 →
        ("" : String) ∈ (collectList ns occ1).2.1)
  | [], _, _, h => ⟨rfl, rfl, h⟩
  | n :: rest, occ1, occ2, h => by
    obtain ⟨e1, e2, e3⟩ := collect_idem_n n occ1 occ2 h
    obtain ⟨f1, f2, f3⟩ := collect_idem_l rest (collectNode n occ1).2.1
      (collectNode (collectNode n occ1).1 occ2).2.1 e3
    simp only [collectList]
    rw [e1]
    refine ⟨?_, ?_, ?_⟩
    · rw [f1]
    · rw [e2, f2]
    · exact f3
termination_by ns _ _ _ => sizeOf ns

end



/-- C8: running the generation a second time on the rewritten tree is
futile — every heading gets the same identifier, the tree is untouched,
and the generated outline nodes are identical. -/
theorem c8_idempotent : ∀ (cs : List HNode) (maxd : Nat) (o : Bool),
    (collectList ((collectList cs []).1) []).2.2 = (collectList cs []).2.2
    ∧ (collectList ((collectList cs []).1) []).1 = (collectList cs []).1
    ∧ generateTocNodes ((collectList cs []).1) maxd o = generateTocNodes cs maxd o := by
  intro cs maxd o
  obtain ⟨e1, e2, e3⟩ := collect_idem_l cs [] [] (fun hx => hx)
  refine ⟨e2, e1, ?_⟩
  simp only [generateTocNodes]
  rw [e1, e2]

end RehypeToc
